import Mathlib

/-!
Verification of the weighted random-number sampler in `next_num.py` and
`random_num_gen.py` (repository `random-number-generator`).

The two modules contain two iterations of the same component:

* `next_num.RandomGen.__init__` / `random_num_gen.RandomGen.__init__` —
  validation and construction of the cumulative-probability table;
* `bisect.bisect` (CPython's `bisect_right`) — the cumulative lookup used by
  `RandomGen.find_index_of_number_for_random_roll` (next_num) and by the
  module-level `find_cumulative_probability_index_of_float` (random_num_gen);
* `RandomGen.next_num` — one sampling draw.

Modelling choices, justified against CPython semantics:

* A Python `float` is an IEEE-754 double; every double is an exact rational,
  and comparisons between a `float` and a `decimal.Decimal` compare the exact
  mathematical values.  We therefore carry a float as its exact rational value
  `val : ℚ` together with `dec : ℚ`, the exact value of
  `decimal.Decimal(str(f))` (Python's `str` of a float is its shortest
  round-tripping decimal string).  Two facts about the shortest-repr map are
  recorded as invariants: it preserves sign and it preserves the comparison
  with 1 (a double below 1 has its shortest decimal repr below 1, and
  conversely, because the repr string rounds back to the double).
* A finite `decimal.Decimal` value is an exact rational, and the
  constructor `Decimal(str(...))` is exact (it never rounds).  Decimal
  *arithmetic*, however, runs under the module's default context:
  `cumulative += probability` computes the exact sum and then rounds it to
  28 significant digits with `ROUND_HALF_EVEN`.  `Decimal` values are
  modelled by `ℚ` and the context rounding by `roundDec` below.
* Python exceptions are modelled by an error type distinguishing the
  exception class together with the raise site (the spec's error taxonomy
  distinguishes errors at exactly that granularity).  A Python `str` value
  used where a number is expected makes `probability < 0` itself raise
  `TypeError`, before the explicit `raise` statements are reached; the
  payload of the string is irrelevant to every code path modelled here, so
  the `str` constructor carries no payload.
-/

/-- The power of ten `10 ^ k` as a rational, for an integer exponent
(written with `mkRat` and `ℕ` powers so that concrete instances evaluate). -/
def qpow (k : ℤ) : ℚ :=
  match k with
  | .ofNat n => mkRat (10 ^ n) 1
  | .negSucc n => mkRat 1 (10 ^ (n + 1))

/-- Fueled helper for `digitLen` (the recursion divides by 10, so fuel `n`
always suffices for input `n`). -/
def digitLenAux : ℕ → ℕ → ℕ
  | 0, _ => 0
  | fuel + 1, n => if n = 0 then 0 else digitLenAux fuel (n / 10) + 1

/-- The number of decimal digits of a natural number (`0` for `0`). -/
def digitLen (n : ℕ) : ℕ := digitLenAux n n

/-- Round a rational to the nearest integer, ties to the even neighbour —
the integer-level core of `ROUND_HALF_EVEN`. -/
def halfEven (z : ℚ) : ℤ :=
  if z - ⌊z⌋ < 1/2 then ⌊z⌋
  else if 1/2 < z - ⌊z⌋ then ⌊z⌋ + 1
  else if ⌊z⌋ % 2 = 0 then ⌊z⌋ else ⌊z⌋ + 1

/-- The decimal exponent of a positive rational: the unique `k` with
`10 ^ (k - 1) ≤ y < 10 ^ k`, computed from the digit lengths of numerator
and denominator. -/
def decExp (y : ℚ) : ℤ :=
  if y < qpow ((digitLen y.num.natAbs : ℤ) - (digitLen y.den : ℤ)) then
    (digitLen y.num.natAbs : ℤ) - (digitLen y.den : ℤ)
  else (digitLen y.num.natAbs : ℤ) - (digitLen y.den : ℤ) + 1

/-- Round a nonnegative rational to 28 significant decimal digits,
half-even: quantize at `10 ^ (decExp y - 28)`. -/
def roundPos (y : ℚ) : ℚ :=
  if y = 0 then 0
  else (halfEven (y / qpow (decExp y - 28))) * qpow (decExp y - 28)

/-- The rounding the `decimal` module's default context applies to every
arithmetic result: 28 significant digits, `ROUND_HALF_EVEN` (sign-symmetric
in the magnitude).  A result with at most 28 significant digits is returned
unchanged. -/
def roundDec (x : ℚ) : ℚ := if x < 0 then -roundPos (-x) else roundPos x

/-- A nonnegative rational representable with at most 28 significant
decimal digits — a value the decimal context never rounds. -/
def Rep28 (y : ℚ) : Prop :=
  ∃ (m : ℕ) (e : ℤ), m < 10 ^ 28 ∧ y = m * qpow e

/-- A Python `float` (IEEE-754 double): `val` is its exact rational value,
`dec` the exact value of `decimal.Decimal(str(·))` applied to it.  The
proof fields record properties of Python's shortest-round-tripping decimal
repr that the code relies on: it preserves the sign, it preserves
comparison with 1, and it emits at most 17 significant digits (recorded in
the weaker form actually used: at most 28 significant digits, so the
decimal context never rounds a freshly converted probability). -/
structure PyFloat where
  val : ℚ
  dec : ℚ
  sign_iff : 0 ≤ val ↔ 0 ≤ dec
  le_one_iff : val ≤ 1 ↔ dec ≤ 1
  dec_rep : Rep28 dec ∨ Rep28 (-dec)

/-- A Python value as it can appear in the constructor's input lists:
an `int`, a `float`, or a `str` (the string payload is irrelevant to every
modelled code path, see the module docstring). -/
inductive PyVal where
  | int (n : ℤ)
  | float (f : PyFloat)
  | str

/-- The distinguishable failure modes of the two constructors, at the
granularity of (exception class, raise site):

* `lengthMismatch` — `ValueError("Length of random_nums and probabilities
  must be equal.")`;
* `outcomeTypeError` — `TypeError("random_nums must be a list of
  integers.")` (next_num) / `TypeError("All random numbers must be
  integers.")` (random_num_gen's descriptor);
* `compareTypeError` — the `TypeError` raised by `probability < 0` itself
  when `probability` is a `str`;
* `negProbError` — `ValueError("probabilities must be non-negative.")`;
* `probGtOneError` — `ValueError("Probabilities cannot be greater than
  1.0.")` (random_num_gen only);
* `probTypeError` — `TypeError("probabilities must be a list of floats.")`;
* `probSumError` — `ValueError("probabilities must sum to 1.")`;
* `indexError` — `IndexError`, from `self._cum_probabilities[-1]` on an
  empty list or from `self._random_nums[number_index]` out of range. -/
inductive PyError where
  | lengthMismatch
  | outcomeTypeError
  | compareTypeError
  | negProbError
  | probGtOneError
  | probTypeError
  | probSumError
  | indexError
deriving DecidableEq

/-- The state a successfully constructed `RandomGen` holds:
`_random_nums` (all elements checked to be `int`), `_probabilities`
(the `Decimal(str(p))` conversions, as exact rationals) and
`_cum_probabilities` (their running sums). -/
structure RandomGenState where
  random_nums : List ℤ
  probabilities : List ℚ
  cum_probabilities : List ℚ
deriving DecidableEq

/-- One iteration of CPython's `bisect_right` loop, with explicit fuel
(structural recursion; `hi - lo` shrinks every iteration, so fuel
`≥ hi - lo` reproduces the loop exactly):

    while lo < hi:
        mid = (lo + hi) // 2
        if x < a[mid]: hi = mid
        else: lo = mid + 1
    return lo
-/
def bisectAux (a : List ℚ) (x : ℚ) : ℕ → ℕ → ℕ → ℕ
  | 0, lo, _ => lo
  | fuel + 1, lo, hi =>
    if lo < hi then
      if x < a.getD ((lo + hi) / 2) 0 then bisectAux a x fuel lo ((lo + hi) / 2)
      else bisectAux a x fuel ((lo + hi) / 2 + 1) hi
    else lo

/-- CPython's `bisect.bisect(a, x)` (= `bisect_right`): insertion point for
`x` in `a`, after any elements equal to `x`.  The initial interval is
`[0, len(a))`, so `len(a)` steps of fuel always suffice. -/
def bisect (a : List ℚ) (x : ℚ) : ℕ := bisectAux a x a.length 0 a.length

/-- Checks `random_nums`: next_num's `any(type(num) != int for num in
random_nums)` and random_num_gen's descriptor `all(isinstance(num, int) for
num in value)` agree on `int`/`float`/`str` values. -/
def allIntegers (nums : List PyVal) : Bool :=
  nums.all fun v => match v with
    | .int _ => true
    | _ => false

/-- The integer extracted from a `PyVal` known to be an `int`. -/
def toInt (v : PyVal) : Option ℤ :=
  match v with
  | .int n => some n
  | _ => none

/-- One pass of next_num's per-probability validation, returning the value
`Decimal(str(probability))` that the loop accumulates:

    if probability < 0:
        raise ValueError("probabilities must be non-negative.")
    if type(probability) != float:
        raise TypeError("probabilities must be a list of floats.")
    probability = decimal.Decimal(str(probability))

For a `str`, the comparison `probability < 0` itself raises `TypeError`.
For an `int` the comparison succeeds (so a negative `int` raises the
`ValueError` first), then the type check raises. -/
def stepNN (v : PyVal) : Except PyError ℚ :=
  match v with
  | .float f => if f.val < 0 then .error .negProbError else .ok f.dec
  | .int n => if n < 0 then .error .negProbError else .error .probTypeError
  | .str => .error .compareTypeError

/-- One pass of random_num_gen's per-probability validation:

    if probability < 0:
        raise ValueError("Probabilities must be non-negative.")
    if probability > 1.0:
        raise ValueError("Probabilities cannot be greater than 1.0.")
    if not isinstance(probability, float):
        raise TypeError("Probabilities must be a list of floats.")
    probability = decimal.Decimal(str(probability))
-/
def stepRNG (v : PyVal) : Except PyError ℚ :=
  match v with
  | .float f =>
    if f.val < 0 then .error .negProbError
    else if 1 < f.val then .error .probGtOneError
    else .ok f.dec
  | .int n =>
    if n < 0 then .error .negProbError
    else if 1 < n then .error .probGtOneError
    else .error .probTypeError
  | .str => .error .compareTypeError

/-- The constructor's `for probability in probabilities:` loop, parametrised
by the per-element validation `step`.  `cumulative` is the running
`Decimal` sum; `cumulative += probability` applies the decimal context's
rounding (`roundDec`) to the exact sum.  The loop returns
(`self._probabilities`, `self._cum_probabilities`) — the stored
probabilities are the unrounded conversions — stopping at the first
element whose validation raises. -/
def probLoop (step : PyVal → Except PyError ℚ) (cumulative : ℚ) :
    List PyVal → Except PyError (List ℚ × List ℚ)
  | [] => .ok ([], [])
  | p :: rest =>
    match step p with
    | .error e => .error e
    | .ok d =>
      match probLoop step (roundDec (cumulative + d)) rest with
      | .error e => .error e
      | .ok (ps, cs) => .ok (d :: ps, roundDec (cumulative + d) :: cs)

/-- `RandomGen.__init__`, parametrised by the per-probability validation
(the only difference between the two iterations).  Order of checks, as in
both sources: length equality, then the integrality of every element of
`random_nums`, then the per-element probability loop, then the final
`self._cum_probabilities[-1] != 1.0` check (which raises `IndexError` on
empty input). -/
def initWith (step : PyVal → Except PyError ℚ)
    (random_nums probabilities : List PyVal) : Except PyError RandomGenState :=
  if random_nums.length ≠ probabilities.length then .error .lengthMismatch
  else if ¬ allIntegers random_nums then .error .outcomeTypeError
  else
    match probLoop step 0 probabilities with
    | .error e => .error e
    | .ok (ps, cs) =>
      match cs.getLast? with
      | none => .error .indexError
      | some c =>
        if c ≠ 1 then .error .probSumError
        else .ok ⟨random_nums.filterMap toInt, ps, cs⟩

namespace NextNum

/-- `next_num.RandomGen.__init__`. -/
def init (random_nums probabilities : List PyVal) : Except PyError RandomGenState :=
  initWith stepNN random_nums probabilities

/-- `next_num.RandomGen.find_index_of_number_for_random_roll`:
`bisect.bisect(cumulative_probabilities, random_roll)`. -/
def find_index_of_number_for_random_roll
    (cumulative_probabilities : List ℚ) (random_roll : ℚ) : ℕ :=
  bisect cumulative_probabilities random_roll

/-- `next_num.RandomGen.next_num`, as a function of the uniform roll
produced by `random.random()`: look the roll up in `_cum_probabilities`
and index `_random_nums` with the result (Python list indexing raises
`IndexError` when the index is out of range). -/
def next_num (s : RandomGenState) (random_roll : ℚ) : Except PyError ℤ :=
  match s.random_nums.get?
      (find_index_of_number_for_random_roll s.cum_probabilities random_roll) with
  | some x => .ok x
  | none => .error .indexError

/-- `RandomGen.next_num` as a method acting on the instance: it reads
`_cum_probabilities` and `_random_nums` and assigns no attribute, so the
post-state is the pre-state. -/
def next_num_method (s : RandomGenState) (random_roll : ℚ) :
    Except PyError ℤ × RandomGenState :=
  (next_num s random_roll, s)

end NextNum

namespace RandomNumGen

/-- `random_num_gen.RandomGen.__init__`. -/
def init (random_nums probabilities : List PyVal) : Except PyError RandomGenState :=
  initWith stepRNG random_nums probabilities

/-- `random_num_gen.find_cumulative_probability_index_of_float`:
`bisect.bisect(cumulative_probabilities, probability_float)`. -/
def find_cumulative_probability_index_of_float
    (cumulative_probabilities : List ℚ) (probability_float : ℚ) : ℕ :=
  bisect cumulative_probabilities probability_float

/-- `random_num_gen.RandomGen.next_num` as a function of the uniform roll. -/
def next_num (s : RandomGenState) (random_roll : ℚ) : Except PyError ℤ :=
  match s.random_nums.get?
      (find_cumulative_probability_index_of_float s.cum_probabilities random_roll) with
  | some x => .ok x
  | none => .error .indexError

/-- `random_num_gen.RandomGen.next_num` as a method acting on the instance:
it assigns no attribute, so the post-state is the pre-state. -/
def next_num_method (s : RandomGenState) (random_roll : ℚ) :
    Except PyError ℤ × RandomGenState :=
  (next_num s random_roll, s)

end RandomNumGen

/-- Exact running sums: `prefixSums c [p₁, p₂, …] = [c+p₁, c+p₁+p₂, …]` —
what the cumulative table would be under infinite-precision arithmetic. -/
def prefixSums (c : ℚ) : List ℚ → List ℚ
  | [] => []
  | p :: ps => (c + p) :: prefixSums (c + p) ps

/-- Context-rounded running sums — the shape of `_cum_probabilities`
produced by the constructor's loop with initial `cumulative = c`: every
addition is followed by the decimal context's rounding. -/
def roundedPrefixSums (c : ℚ) : List ℚ → List ℚ
  | [] => []
  | p :: ps => roundDec (c + p) :: roundedPrefixSums (roundDec (c + p)) ps

/-- The cumulative value strictly below bucket `i`: `a[i-1]`, taking the
value before the first bucket to be `0` (the claim's `c₋₁ = 0`). -/
def cprev (a : List ℚ) (i : ℕ) : ℚ :=
  if i = 0 then 0 else a.getD (i - 1) 0

/-- Adjacent entries of the table are in non-decreasing order (Bool-valued,
so that concrete tables can be checked by evaluation). -/
def monoB : List ℚ → Bool
  | [] => true
  | [_] => true
  | x :: y :: rest => decide (x ≤ y) && monoB (y :: rest)

/-- A monotonically non-decreasing table. -/
def MonoTable (a : List ℚ) : Prop := monoB a = true

instance (a : List ℚ) : Decidable (MonoTable a) :=
  inferInstanceAs (Decidable (monoB a = true))

instance {ε α : Type} [DecidableEq ε] [DecidableEq α] : DecidableEq (Except ε α) :=
  fun a b =>
    match a, b with
    | .ok x, .ok y =>
      if h : x = y then isTrue (congrArg Except.ok h)
      else isFalse fun he => h (Except.ok.inj he)
    | .error x, .error y =>
      if h : x = y then isTrue (congrArg Except.error h)
      else isFalse fun he => h (Except.error.inj he)
    | .ok _, .error _ => isFalse fun he => Except.noConfusion he
    | .error _, .ok _ => isFalse fun he => Except.noConfusion he

/-- Whether a fallible computation succeeded. -/
def isOk {α : Type} (r : Except PyError α) : Bool :=
  match r with
  | .ok _ => true
  | .error _ => false

/-- Whether an error is the spec's **InvalidProbability** kind (a probability
negative or exceeding 1.0): the `ValueError`s raised by the two explicit
range checks. -/
def isInvalidProbability (e : PyError) : Bool :=
  match e with
  | .negProbError => true
  | .probGtOneError => true
  | _ => false

/-- Modelled from the spec: the process's shared pseudo-random source
(Python's `random` module, external to the repository).  Per the spec,
seeding the source fixes its subsequent outputs, so a source is a function
from the seed and the draw index to the uniform roll in `[0,1)` that the
`seed`-th reseeded stream produces at that index. -/
def RandomSource : Type := ℕ → ℕ → ℚ

/-- One test run of `next_num.RandomGen`: seed the shared source, then
perform `K` calls of `next_num`, collecting the returned outcomes. -/
def seededRunNN (src : RandomSource) (seed : ℕ) (s : RandomGenState) (K : ℕ) :
    List (Except PyError ℤ) :=
  (List.range K).map fun k => NextNum.next_num s (src seed k)

/-- One test run of `random_num_gen.RandomGen`: seed the shared source, then
perform `K` calls of `next_num`, collecting the returned outcomes. -/
def seededRunRNG (src : RandomSource) (seed : ℕ) (s : RandomGenState) (K : ℕ) :
    List (Except PyError ℤ) :=
  (List.range K).map fun k => RandomNumGen.next_num s (src seed k)

/-! Concrete Python floats used by the repository's own examples and tests.
`val` is the exact rational value of the IEEE-754 double the literal parses
to; `dec` is the value of `Decimal(str(·))`, i.e. of the literal itself
(each literal is its own shortest round-tripping repr). -/

/-- The Python float `0.01`. -/
def f001 : PyFloat :=
  ⟨5764607523034235 / 576460752303423488, 1 / 100, by norm_num, by norm_num,
   Or.inl ⟨1, -2, by norm_num, by decide!⟩⟩

/-- The Python float `0.3`. -/
def f03 : PyFloat :=
  ⟨5404319552844595 / 18014398509481984, 3 / 10, by norm_num, by norm_num,
   Or.inl ⟨3, -1, by norm_num, by decide!⟩⟩

/-- The Python float `0.58`. -/
def f058 : PyFloat :=
  ⟨5224175567749775 / 9007199254740992, 29 / 50, by norm_num, by norm_num,
   Or.inl ⟨58, -2, by norm_num, by decide!⟩⟩

/-- The Python float `0.1`. -/
def f01 : PyFloat :=
  ⟨3602879701896397 / 36028797018963968, 1 / 10, by norm_num, by norm_num,
   Or.inl ⟨1, -1, by norm_num, by decide!⟩⟩

/-- The Python float `0.02`. -/
def f002 : PyFloat :=
  ⟨5764607523034235 / 288230376151711744, 1 / 50, by norm_num, by norm_num,
   Or.inl ⟨2, -2, by norm_num, by decide!⟩⟩

/-- The Python float `0.2`. -/
def f02 : PyFloat :=
  ⟨3602879701896397 / 18014398509481984, 1 / 5, by norm_num, by norm_num,
   Or.inl ⟨2, -1, by norm_num, by decide!⟩⟩

/-- The Python float `0.7`. -/
def f07 : PyFloat :=
  ⟨3152519739159347 / 4503599627370496, 7 / 10, by norm_num, by norm_num,
   Or.inl ⟨7, -1, by norm_num, by decide!⟩⟩

/-- The Python float `1.5` (exactly representable). -/
def f15 : PyFloat :=
  ⟨3 / 2, 3 / 2, by norm_num, by norm_num,
   Or.inl ⟨15, -1, by norm_num, by decide!⟩⟩

/-- The Python float `3.1`. -/
def f31 : PyFloat :=
  ⟨6980579422424269 / 2251799813685248, 31 / 10, by norm_num, by norm_num,
   Or.inl ⟨31, -1, by norm_num, by decide!⟩⟩

/-- The Python float `-0.5` (exactly representable). -/
def fm05 : PyFloat :=
  ⟨-1 / 2, -1 / 2, by norm_num, by norm_num,
   Or.inr ⟨5, -1, by norm_num, by decide!⟩⟩

/-- The Python float `1e-30` (its shortest repr is `1e-30`). -/
def f1em30 : PyFloat :=
  ⟨178405961588245 / 178405961588244985132285746181186892047843328,
   1 / 10 ^ 30, by norm_num, by norm_num,
   Or.inl ⟨1, -30, by norm_num, by decide!⟩⟩

/-- The Python float `1.0` (exactly representable). -/
def f10 : PyFloat :=
  ⟨1, 1, by norm_num, by norm_num, Or.inl ⟨1, 0, by norm_num, by decide!⟩⟩

/-- The exact value of the double `0.1` used as a roll. -/
def roll01 : ℚ := 3602879701896397 / 36028797018963968

/-- The exact value of the double `0.09999999999999999` (one ulp below the
double `0.1`). -/
def rollBelow01 : ℚ := 7205759403792793 / 72057594037927936

/-- The exact value of the double `0.9999999999999999` (one ulp below 1). -/
def rollBelow1 : ℚ := 9007199254740991 / 9007199254740992

/-- The repository's running example: `random_nums = [-1, 0, 1, 2, 3]`. -/
def exampleNums : List PyVal := [.int (-1), .int 0, .int 1, .int 2, .int 3]

/-- The repository's running example:
`probabilities = [0.01, 0.3, 0.58, 0.1, 0.01]`. -/
def exampleProbs : List PyVal :=
  [.float f001, .float f03, .float f058, .float f01, .float f001]

/-- The test suite's bad-sum input: `[0.01, 0.3, 0.58, 0.1, 0.02]`
(sums to 1.01). -/
def badSumProbs : List PyVal :=
  [.float f001, .float f03, .float f058, .float f01, .float f002]

/-- The state both constructors produce on the running example. -/
def exampleState : RandomGenState :=
  ⟨[-1, 0, 1, 2, 3],
   [1/100, 3/10, 29/50, 1/10, 1/100],
   [1/100, 31/100, 89/100, 99/100, 1]⟩

/-- The state next_num's constructor produces from outcomes `[0, 1]` and
probabilities `[1e-30, 1.0]`: the second addition rounds
`1.000000000000000000000000000001` (31 significant digits) to exactly `1`,
so construction succeeds with a cumulative table that is not the exact
prefix-sum list of the stored probabilities. -/
def roundedState : RandomGenState :=
  ⟨[0, 1], [1 / 10 ^ 30, 1], [1 / 10 ^ 30, 1]⟩

/-- The lookup tests' construction: `random_nums = [1, 2, 3]`. -/
def threeNums : List PyVal := [.int 1, .int 2, .int 3]

/-- The lookup tests' construction: `probabilities = [0.1, 0.2, 0.7]`. -/
def threeProbs : List PyVal := [.float f01, .float f02, .float f07]

/-- The state the constructors produce from `[1,2,3]` / `[0.1,0.2,0.7]`;
its cumulative table is the spec's `[0.1, 0.3, 1.0]`. -/
def threeState : RandomGenState :=
  ⟨[1, 2, 3], [1/10, 1/5, 7/10], [1/10, 3/10, 1]⟩

/-! ### The decimal context rounding: correctness of `roundDec` -/

theorem qpow_eq_zpow (k : ℤ) : qpow k = (10 : ℚ) ^ k := by
  cases k with
  | ofNat n =>
    show mkRat ((10 : ℤ) ^ n) 1 = _
    rw [Rat.mkRat_one]
    push_cast
    exact (zpow_natCast 10 n).symm
  | negSucc n =>
    show mkRat 1 ((10 : ℕ) ^ (n + 1)) = _
    rw [zpow_negSucc, Rat.mkRat_eq_div]
    push_cast
    rw [one_div]

theorem qpow_pos (k : ℤ) : 0 < qpow k := by
  rw [qpow_eq_zpow]
  positivity

theorem qpow_le_qpow {k l : ℤ} (h : k ≤ l) : qpow k ≤ qpow l := by
  rw [qpow_eq_zpow, qpow_eq_zpow]
  exact zpow_le_zpow_right₀ (by norm_num) h

theorem qpow_mul_qpow (a b : ℤ) : qpow a * qpow b = qpow (a + b) := by
  rw [qpow_eq_zpow, qpow_eq_zpow, qpow_eq_zpow]
  rw [← zpow_add₀ (by norm_num : (10:ℚ) ≠ 0)]

theorem digitLenAux_zero (fuel : ℕ) : digitLenAux fuel 0 = 0 := by
  cases fuel <;> rfl

theorem digitLenAux_spec :
    ∀ (fuel n : ℕ), n ≤ fuel → 1 ≤ n →
      10 ^ (digitLenAux fuel n - 1) ≤ n ∧ n < 10 ^ digitLenAux fuel n
  | 0, n, hf, h1 => by omega
  | fuel + 1, n, hf, h1 => by
    have hne : n ≠ 0 := by omega
    rw [digitLenAux, if_neg hne]
    by_cases h10 : n < 10
    · have hd0 : n / 10 = 0 := Nat.div_eq_of_lt h10
      rw [hd0, digitLenAux_zero]
      constructor
      · simpa using h1
      · simpa using h10
    · push_neg at h10
      have hm1 : 1 ≤ n / 10 := (Nat.one_le_div_iff (by norm_num)).mpr h10
      have hmf : n / 10 ≤ fuel := by
        have := Nat.div_lt_self (by omega : 0 < n) (by norm_num : 1 < 10)
        omega
      obtain ⟨ihl, ihu⟩ := digitLenAux_spec fuel (n / 10) hmf hm1
      set L := digitLenAux fuel (n / 10) with hL
      have hLpos : 1 ≤ L := by
        by_contra hc
        have hL0 : L = 0 := by omega
        rw [hL0] at ihu
        simp at ihu
        omega
      have hdm := Nat.div_add_mod n 10
      have hmod : n % 10 < 10 := Nat.mod_lt n (by norm_num)
      have h2 : 10 ^ L = 10 * 10 ^ (L - 1) := by
        conv_lhs => rw [show L = L - 1 + 1 by omega]
        rw [pow_succ]
        ring
      have h4 : (10 : ℕ) ^ (L + 1) = 10 * 10 ^ L := by
        rw [pow_succ]
        ring
      constructor
      · have h3 : 10 * 10 ^ (L - 1) ≤ 10 * (n / 10) := Nat.mul_le_mul_left 10 ihl
        rw [Nat.add_sub_cancel, h2]
        omega
      · have h5 : n / 10 + 1 ≤ 10 ^ L := ihu
        rw [h4]
        omega

theorem digitLen_spec (n : ℕ) (h : 1 ≤ n) :
    10 ^ (digitLen n - 1) ≤ n ∧ n < 10 ^ digitLen n :=
  digitLenAux_spec n n le_rfl h

theorem digitLen_pos (n : ℕ) (h : 1 ≤ n) : 1 ≤ digitLen n := by
  by_contra hc
  have h0 : digitLen n = 0 := by omega
  have := (digitLen_spec n h).2
  rw [h0] at this
  simp at this
  omega

theorem decExp_spec (y : ℚ) (hy : 0 < y) :
    qpow (decExp y - 1) ≤ y ∧ y < qpow (decExp y) := by
  set N := y.num.natAbs with hN
  set D := y.den with hD
  have hnum : 0 < y.num := Rat.num_pos.mpr hy
  have hN1 : 1 ≤ N := by
    rw [hN]
    omega
  have hD1 : 1 ≤ D := y.pos
  obtain ⟨hNl, hNu⟩ := digitLen_spec N hN1
  obtain ⟨hDl, hDu⟩ := digitLen_spec D hD1
  have hdn := digitLen_pos N hN1
  have hdd := digitLen_pos D hD1
  have h2 : ((N : ℕ) : ℚ) = ((y.num : ℤ) : ℚ) := by
    rw [hN, Int.cast_natAbs, abs_of_nonneg (le_of_lt hnum)]
  have hyND : y = (N : ℚ) / (D : ℚ) := by
    rw [h2, hD]
    exact (Rat.num_div_den y).symm
  have hDpos : (0 : ℚ) < (D : ℚ) := by exact_mod_cast hD1
  -- strict bounds around the candidate exponent t
  have low : qpow ((digitLen N : ℤ) - (digitLen D : ℤ) - 1) < y := by
    rw [qpow_eq_zpow, hyND, lt_div_iff hDpos]
    have he : ((digitLen N : ℤ) - (digitLen D : ℤ) - 1) =
        ((digitLen N - 1 : ℕ) : ℤ) - ((digitLen D : ℕ) : ℤ) := by
      push_cast [Nat.cast_sub hdn]
      ring
    rw [he, zpow_sub₀ (by norm_num : (10:ℚ) ≠ 0), zpow_natCast, zpow_natCast]
    rw [div_mul_eq_mul_div, div_lt_iff (by positivity : (0:ℚ) < (10:ℚ) ^ digitLen D)]
    have c1 : ((10 : ℚ) ^ (digitLen N - 1) : ℚ) ≤ (N : ℚ) := by exact_mod_cast hNl
    have c2 : ((D : ℚ)) < (10 : ℚ) ^ digitLen D := by exact_mod_cast hDu
    have hNpos : (0 : ℚ) < (10 : ℚ) ^ (digitLen N - 1) := by positivity
    nlinarith
  have up : y < qpow ((digitLen N : ℤ) - (digitLen D : ℤ) + 1) := by
    rw [qpow_eq_zpow, hyND, div_lt_iff hDpos]
    have he : ((digitLen N : ℤ) - (digitLen D : ℤ) + 1) =
        ((digitLen N : ℕ) : ℤ) - ((digitLen D - 1 : ℕ) : ℤ) := by
      push_cast [Nat.cast_sub hdd]
      ring
    rw [he, zpow_sub₀ (by norm_num : (10:ℚ) ≠ 0), zpow_natCast, zpow_natCast]
    rw [div_mul_eq_mul_div, lt_div_iff (by positivity : (0:ℚ) < (10:ℚ) ^ (digitLen D - 1))]
    have c1 : (N : ℚ) < (10 : ℚ) ^ digitLen N := by exact_mod_cast hNu
    have c2 : ((10 : ℚ) ^ (digitLen D - 1) : ℚ) ≤ (D : ℚ) := by exact_mod_cast hDl
    have hDpow : (0 : ℚ) < (10 : ℚ) ^ (digitLen D - 1) := by positivity
    nlinarith
  unfold decExp
  rw [← hN, ← hD]
  split_ifs with hsplit
  · constructor
    · have : (digitLen N : ℤ) - (digitLen D : ℤ) - 1 =
        ((digitLen N : ℤ) - (digitLen D : ℤ)) - 1 := by ring
      exact le_of_lt (by rw [← this] at low ⊢; exact low)
    · exact hsplit
  · push_neg at hsplit
    constructor
    · have h1 : (digitLen N : ℤ) - (digitLen D : ℤ) + 1 - 1 =
        (digitLen N : ℤ) - (digitLen D : ℤ) := by ring
      rw [h1]
      exact hsplit
    · exact up

theorem decExp_min (y : ℚ) (hy : 0 < y) (k : ℤ) (hk : y < qpow k) :
    decExp y ≤ k := by
  by_contra hc
  push_neg at hc
  have h1 : qpow k ≤ qpow (decExp y - 1) := qpow_le_qpow (by omega)
  have h2 := (decExp_spec y hy).1
  linarith

theorem decExp_mono (x y : ℚ) (hx : 0 < x) (h : x ≤ y) : decExp x ≤ decExp y :=
  decExp_min x hx _ (lt_of_le_of_lt h (decExp_spec y (lt_of_lt_of_le hx h)).2)

theorem le_halfEven (z : ℚ) : ⌊z⌋ ≤ halfEven z := by
  unfold halfEven
  split_ifs <;> omega

theorem halfEven_le (z : ℚ) : halfEven z ≤ ⌊z⌋ + 1 := by
  unfold halfEven
  split_ifs <;> omega

theorem halfEven_intCast (n : ℤ) : halfEven (n : ℚ) = n := by
  unfold halfEven
  rw [Int.floor_intCast, sub_self]
  norm_num

theorem halfEven_mono {z w : ℚ} (h : z ≤ w) : halfEven z ≤ halfEven w := by
  have hf : ⌊z⌋ ≤ ⌊w⌋ := Int.floor_mono h
  rcases eq_or_lt_of_le hf with heq | hlt
  · have hzw : z - (⌊z⌋ : ℚ) ≤ w - (⌊z⌋ : ℚ) := by linarith
    unfold halfEven
    rw [← heq]
    split_ifs <;> first | omega | linarith
  · calc halfEven z ≤ ⌊z⌋ + 1 := halfEven_le z
      _ ≤ ⌊w⌋ := by omega
      _ ≤ halfEven w := le_halfEven w

theorem roundPos_nonneg (y : ℚ) (hy : 0 ≤ y) : 0 ≤ roundPos y := by
  unfold roundPos
  split_ifs with h0
  · exact le_rfl
  · have hy' : 0 < y := lt_of_le_of_ne hy (Ne.symm h0)
    have hq := qpow_pos (decExp y - 28)
    have hz : (0 : ℤ) ≤ halfEven (y / qpow (decExp y - 28)) :=
      le_trans (Int.floor_nonneg.mpr (by positivity)) (le_halfEven _)
    have : (0 : ℚ) ≤ (halfEven (y / qpow (decExp y - 28)) : ℚ) := by exact_mod_cast hz
    exact mul_nonneg this hq.le

theorem roundPos_le (y : ℚ) (hy : 0 < y) : roundPos y ≤ qpow (decExp y) := by
  unfold roundPos
  rw [if_neg (ne_of_gt hy)]
  have hq := qpow_pos (decExp y - 28)
  have hlt : y / qpow (decExp y - 28) < ((10 ^ 28 : ℤ) : ℚ) := by
    rw [div_lt_iff₀ hq]
    have h1 : ((10 ^ 28 : ℤ) : ℚ) * qpow (decExp y - 28) = qpow (decExp y) := by
      have hc : ((10 ^ 28 : ℤ) : ℚ) = qpow 28 := by decide!
      rw [hc, qpow_mul_qpow]
      congr 1
      ring
    rw [h1]
    exact (decExp_spec y hy).2
  have hfl : ⌊y / qpow (decExp y - 28)⌋ < 10 ^ 28 := Int.floor_lt.mpr hlt
  have hhe : halfEven (y / qpow (decExp y - 28)) ≤ 10 ^ 28 :=
    le_trans (halfEven_le _) (by omega)
  have hcast : ((halfEven (y / qpow (decExp y - 28)) : ℤ) : ℚ) ≤ ((10 ^ 28 : ℤ) : ℚ) := by
    exact_mod_cast hhe
  calc (halfEven (y / qpow (decExp y - 28)) : ℚ) * qpow (decExp y - 28)
      ≤ ((10 ^ 28 : ℤ) : ℚ) * qpow (decExp y - 28) :=
        mul_le_mul_of_nonneg_right hcast hq.le
    _ = qpow (decExp y) := by
        have hc : ((10 ^ 28 : ℤ) : ℚ) = qpow 28 := by decide!
        rw [hc, qpow_mul_qpow]
        congr 1
        ring

theorem le_roundPos (y : ℚ) (hy : 0 < y) : qpow (decExp y - 1) ≤ roundPos y := by
  unfold roundPos
  rw [if_neg (ne_of_gt hy)]
  have hq := qpow_pos (decExp y - 28)
  have hc27 : ((10 ^ 27 : ℤ) : ℚ) = qpow 27 := by decide!
  have hle : ((10 ^ 27 : ℤ) : ℚ) ≤ y / qpow (decExp y - 28) := by
    rw [le_div_iff₀ hq, hc27, qpow_mul_qpow]
    have : (27 : ℤ) + (decExp y - 28) = decExp y - 1 := by ring
    rw [this]
    exact (decExp_spec y hy).1
  have hfl : (10 ^ 27 : ℤ) ≤ ⌊y / qpow (decExp y - 28)⌋ := Int.le_floor.mpr hle
  have hhe : (10 ^ 27 : ℤ) ≤ halfEven (y / qpow (decExp y - 28)) :=
    le_trans hfl (le_halfEven _)
  have hcast : ((10 ^ 27 : ℤ) : ℚ) ≤ (halfEven (y / qpow (decExp y - 28)) : ℚ) := by
    exact_mod_cast hhe
  calc qpow (decExp y - 1) = ((10 ^ 27 : ℤ) : ℚ) * qpow (decExp y - 28) := by
        rw [hc27, qpow_mul_qpow]
        congr 1
        ring
    _ ≤ (halfEven (y / qpow (decExp y - 28)) : ℚ) * qpow (decExp y - 28) :=
        mul_le_mul_of_nonneg_right hcast hq.le

theorem roundPos_zero : roundPos 0 = 0 := by
  unfold roundPos
  simp

theorem roundPos_mono (x y : ℚ) (hx : 0 ≤ x) (hxy : x ≤ y) :
    roundPos x ≤ roundPos y := by
  rcases eq_or_lt_of_le hx with h0 | hx'
  · rw [← h0, roundPos_zero]
    exact roundPos_nonneg y (le_trans hx hxy)
  · have hy' : 0 < y := lt_of_lt_of_le hx' hxy
    have hk := decExp_mono x y hx' hxy
    rcases eq_or_lt_of_le hk with heq | hlt
    · unfold roundPos
      rw [if_neg (ne_of_gt hx'), if_neg (ne_of_gt hy'), ← heq]
      have hq := qpow_pos (decExp x - 28)
      have hdiv : x / qpow (decExp x - 28) ≤ y / qpow (decExp x - 28) :=
        (div_le_div_right hq).mpr hxy
      have hhe : halfEven (x / qpow (decExp x - 28)) ≤
          halfEven (y / qpow (decExp x - 28)) := halfEven_mono hdiv
      have hcast : ((halfEven (x / qpow (decExp x - 28)) : ℤ) : ℚ) ≤
          ((halfEven (y / qpow (decExp x - 28)) : ℤ) : ℚ) := by exact_mod_cast hhe
      exact mul_le_mul_of_nonneg_right hcast hq.le
    · calc roundPos x ≤ qpow (decExp x) := roundPos_le x hx'
        _ ≤ qpow (decExp y - 1) := qpow_le_qpow (by omega)
        _ ≤ roundPos y := le_roundPos y hy'

theorem roundPos_rep (y : ℚ) (h : Rep28 y) : roundPos y = y := by
  obtain ⟨m, e, hm, rfl⟩ := h
  rcases Nat.eq_zero_or_pos m with hm0 | hm1
  · subst hm0
    rw [Nat.cast_zero, zero_mul, roundPos_zero]
  · have hy : 0 < (m : ℚ) * qpow e :=
      mul_pos (by exact_mod_cast hm1) (qpow_pos e)
    unfold roundPos
    rw [if_neg (ne_of_gt hy)]
    set k := decExp ((m : ℚ) * qpow e) with hkdef
    have hk : k ≤ e + 28 := by
      rw [hkdef]
      apply decExp_min _ hy
      have hmlt : (m : ℚ) < ((10 ^ 28 : ℕ) : ℚ) := by exact_mod_cast hm
      have hq28 : ((10 ^ 28 : ℕ) : ℚ) = qpow 28 := by decide!
      calc (m : ℚ) * qpow e < ((10 ^ 28 : ℕ) : ℚ) * qpow e :=
            mul_lt_mul_of_pos_right hmlt (qpow_pos e)
        _ = qpow 28 * qpow e := by rw [hq28]
        _ = qpow (e + 28) := by rw [qpow_mul_qpow]; congr 1; ring
    have hδ : 0 ≤ e + 28 - k := by omega
    have hδint : (((e + 28 - k).toNat : ℕ) : ℤ) = e + 28 - k :=
      Int.toNat_of_nonneg hδ
    have h2 : ∀ d : ℕ, qpow ((d : ℕ) : ℤ) = ((10 ^ d : ℕ) : ℚ) := by
      intro d
      show mkRat ((10 : ℤ) ^ d) 1 = _
      rw [Rat.mkRat_one]
      push_cast
      ring
    have h1 : qpow e / qpow (k - 28) = qpow (((e + 28 - k).toNat : ℕ) : ℤ) := by
      rw [qpow_eq_zpow, qpow_eq_zpow, qpow_eq_zpow,
        ← zpow_sub₀ (by norm_num : (10:ℚ) ≠ 0)]
      congr 1
      omega
    have hNval : (m : ℚ) * qpow e / qpow (k - 28) =
        ((m * 10 ^ (e + 28 - k).toNat : ℕ) : ℚ) := by
      rw [mul_div_assoc, h1, h2]
      push_cast
      ring
    rw [hNval]
    have hhe : halfEven (((m * 10 ^ (e + 28 - k).toNat : ℕ) : ℚ)) =
        ((m * 10 ^ (e + 28 - k).toNat : ℕ) : ℤ) := by
      have := halfEven_intCast ((m * 10 ^ (e + 28 - k).toNat : ℕ) : ℤ)
      rwa [Int.cast_natCast] at this
    rw [hhe, Int.cast_natCast]
    have h3 : ((m * 10 ^ (e + 28 - k).toNat : ℕ) : ℚ) =
        (m : ℚ) * qpow (((e + 28 - k).toNat : ℕ) : ℤ) := by
      rw [h2]
      push_cast
      ring
    rw [h3, mul_assoc, qpow_mul_qpow]
    congr 2
    omega

theorem rep_roundPos (y : ℚ) (hy : 0 ≤ y) : Rep28 (roundPos y) := by
  rcases eq_or_lt_of_le hy with h0 | hy'
  · rw [← h0, roundPos_zero]
    exact ⟨0, 0, by norm_num, by simp⟩
  · have hub : halfEven (y / qpow (decExp y - 28)) ≤ 10 ^ 28 := by
      have hq := qpow_pos (decExp y - 28)
      have hlt : y / qpow (decExp y - 28) < ((10 ^ 28 : ℤ) : ℚ) := by
        rw [div_lt_iff₀ hq]
        have hc : ((10 ^ 28 : ℤ) : ℚ) = qpow 28 := by decide!
        rw [hc, qpow_mul_qpow]
        have he : (28 : ℤ) + (decExp y - 28) = decExp y := by ring
        rw [he]
        exact (decExp_spec y hy').2
      have := Int.floor_lt.mpr hlt
      have h2 := halfEven_le (y / qpow (decExp y - 28))
      omega
    have hlb : 0 ≤ halfEven (y / qpow (decExp y - 28)) :=
      le_trans (Int.floor_nonneg.mpr (div_nonneg hy'.le (qpow_pos _).le))
        (le_halfEven _)
    have hval : roundPos y =
        ((halfEven (y / qpow (decExp y - 28)) : ℤ) : ℚ) * qpow (decExp y - 28) := by
      unfold roundPos
      rw [if_neg (ne_of_gt hy')]
    rcases eq_or_lt_of_le hub with hMeq | hMlt
    · refine ⟨1, decExp y, by norm_num, ?_⟩
      rw [hval, hMeq]
      have hc : ((10 ^ 28 : ℤ) : ℚ) = qpow 28 := by decide!
      rw [hc, qpow_mul_qpow, Nat.cast_one, one_mul]
      congr 1
      ring
    · refine ⟨(halfEven (y / qpow (decExp y - 28))).toNat, decExp y - 28, by omega, ?_⟩
      rw [hval]
      congr 1
      have := Int.toNat_of_nonneg hlb
      exact_mod_cast congrArg (fun z : ℤ => (z : ℚ)) this.symm

theorem roundDec_of_nonneg (x : ℚ) (h : 0 ≤ x) : roundDec x = roundPos x := by
  unfold roundDec
  rw [if_neg (not_lt.mpr h)]

theorem roundDec_zero : roundDec 0 = 0 := by
  rw [roundDec_of_nonneg 0 le_rfl, roundPos_zero]

theorem roundDec_nonneg (x : ℚ) (h : 0 ≤ x) : 0 ≤ roundDec x := by
  rw [roundDec_of_nonneg x h]
  exact roundPos_nonneg x h

theorem roundDec_mono (x y : ℚ) (hx : 0 ≤ x) (h : x ≤ y) :
    roundDec x ≤ roundDec y := by
  rw [roundDec_of_nonneg x hx, roundDec_of_nonneg y (le_trans hx h)]
  exact roundPos_mono x y hx h

theorem rep28_nonneg (y : ℚ) (h : Rep28 y) : 0 ≤ y := by
  obtain ⟨m, e, -, rfl⟩ := h
  exact mul_nonneg (by positivity) (qpow_pos e).le

theorem roundDec_rep (y : ℚ) (h : Rep28 y) : roundDec y = y := by
  rw [roundDec_of_nonneg y (rep28_nonneg y h)]
  exact roundPos_rep y h

theorem roundDec_idem (x : ℚ) (h : 0 ≤ x) :
    roundDec (roundDec x) = roundDec x := by
  rw [roundDec_of_nonneg x h]
  exact roundDec_rep _ (rep_roundPos x h)

/-! ### Basic facts about `MonoTable`, `getLast?` and `prefixSums` -/

theorem monoTable_cons_cons (x y : ℚ) (rest : List ℚ) :
    MonoTable (x :: y :: rest) ↔ x ≤ y ∧ MonoTable (y :: rest) := by
  simp [MonoTable, monoB]

theorem monoTable_tail (x : ℚ) (rest : List ℚ) (h : MonoTable (x :: rest)) :
    MonoTable rest := by
  cases rest with
  | nil => rfl
  | cons y t => exact ((monoTable_cons_cons x y t).mp h).2

theorem monoTable_adj :
    ∀ (a : List ℚ), MonoTable a → ∀ i, i + 1 < a.length →
      a.getD i 0 ≤ a.getD (i + 1) 0
  | [], _, i, hi => by simp at hi
  | [_], _, i, hi => by simp at hi
  | x :: y :: rest, h, 0, _ => by
    simpa using ((monoTable_cons_cons x y rest).mp h).1
  | x :: y :: rest, h, i + 1, hi => by
    have ht := ((monoTable_cons_cons x y rest).mp h).2
    have := monoTable_adj (y :: rest) ht i (by simpa using hi)
    simpa using this

theorem monoTable_le (a : List ℚ) (h : MonoTable a) :
    ∀ i j, i ≤ j → j < a.length → a.getD i 0 ≤ a.getD j 0 := by
  intro i j hij hj
  induction j, hij using Nat.le_induction with
  | base => exact le_rfl
  | succ n hn ih =>
    exact le_trans (ih (by omega)) (monoTable_adj a h n hj)

theorem getD_last :
    ∀ (a : List ℚ) (L : ℚ), a.getLast? = some L →
      0 < a.length ∧ a.getD (a.length - 1) 0 = L
  | [], L, h => by simp at h
  | [x], L, h => by
    simp only [List.getLast?_singleton, Option.some.injEq] at h
    simp [h]
  | x :: y :: rest, L, h => by
    rw [List.getLast?_cons_cons] at h
    have ih := getD_last (y :: rest) L h
    refine ⟨by simp, ?_⟩
    have hlen : (x :: y :: rest).length - 1 = ((y :: rest).length - 1) + 1 := by
      simp
    rw [hlen, List.getD_cons_succ]
    exact ih.2

theorem roundedPrefixSums_length : ∀ (ps : List ℚ) (c : ℚ),
    (roundedPrefixSums c ps).length = ps.length
  | [], _ => rfl
  | p :: ps, c => by
    simp [roundedPrefixSums, roundedPrefixSums_length ps (roundDec (c + p))]

theorem roundedPrefixSums_getD_succ :
    ∀ (ps : List ℚ) (c : ℚ) (i : ℕ), i + 1 < ps.length →
      (roundedPrefixSums c ps).getD (i + 1) 0 =
        roundDec ((roundedPrefixSums c ps).getD i 0 + ps.getD (i + 1) 0)
  | [], _, _, hi => by simp at hi
  | [_], _, _, hi => by simp at hi
  | p :: q :: rest, c, 0, _ => by
    simp [roundedPrefixSums]
  | p :: rest, c, i + 1, hi => by
    simp only [roundedPrefixSums, List.getD_cons_succ]
    exact roundedPrefixSums_getD_succ rest (roundDec (c + p)) i (by simpa using hi)

theorem roundedPrefixSums_getD (ps : List ℚ) (i : ℕ) (hi : i < ps.length) :
    (roundedPrefixSums 0 ps).getD i 0 =
      roundDec (cprev (roundedPrefixSums 0 ps) i + ps.getD i 0) := by
  cases i with
  | zero =>
    cases ps with
    | nil => simp at hi
    | cons p rest => simp [roundedPrefixSums, cprev]
  | succ n =>
    have hrec := roundedPrefixSums_getD_succ ps 0 n hi
    have hc : cprev (roundedPrefixSums 0 ps) (n + 1) =
        (roundedPrefixSums 0 ps).getD n 0 := by
      simp [cprev]
    rw [hc, hrec]

theorem roundedPrefixSums_nonneg :
    ∀ (ps : List ℚ) (c : ℚ), 0 ≤ c → (∀ p ∈ ps, 0 ≤ p) →
      ∀ x ∈ roundedPrefixSums c ps, 0 ≤ x
  | [], _, _, _, x, hx => by simp [roundedPrefixSums] at hx
  | p :: rest, c, hc, hnn, x, hx => by
    have hp : 0 ≤ p := hnn p (by simp)
    have hc' : 0 ≤ roundDec (c + p) := roundDec_nonneg _ (by linarith)
    rcases List.mem_cons.mp hx with hx0 | hxr
    · rw [hx0]
      exact hc'
    · exact roundedPrefixSums_nonneg rest (roundDec (c + p)) hc'
        (fun z hz => hnn z (List.mem_cons_of_mem p hz)) x hxr

theorem roundedPrefixSums_mono :
    ∀ (ps : List ℚ) (c : ℚ), 0 ≤ c → (∀ p ∈ ps, 0 ≤ p) →
      MonoTable (roundedPrefixSums c ps)
  | [], _, _, _ => rfl
  | [p], c, _, _ => rfl
  | p :: q :: rest, c, hc, h => by
    have hp : 0 ≤ p := h p (by simp)
    have hq : 0 ≤ q := h q (by simp)
    have hcp : 0 ≤ roundDec (c + p) := roundDec_nonneg _ (by linarith)
    have ht := roundedPrefixSums_mono (q :: rest) (roundDec (c + p)) hcp
      (fun x hx => h x (List.mem_cons_of_mem p hx))
    show MonoTable (roundDec (c + p) :: roundedPrefixSums (roundDec (c + p)) (q :: rest))
    rw [show roundedPrefixSums (roundDec (c + p)) (q :: rest) =
      roundDec (roundDec (c + p) + q) :: roundedPrefixSums
        (roundDec (roundDec (c + p) + q)) rest from rfl]
    rw [show roundedPrefixSums (roundDec (c + p)) (q :: rest) =
      roundDec (roundDec (c + p) + q) :: roundedPrefixSums
        (roundDec (roundDec (c + p) + q)) rest from rfl] at ht
    refine (monoTable_cons_cons _ _ _).mpr ⟨?_, ht⟩
    calc roundDec (c + p) = roundDec (roundDec (c + p)) :=
          (roundDec_idem _ (by linarith)).symm
      _ ≤ roundDec (roundDec (c + p) + q) :=
          roundDec_mono _ _ hcp (by linarith)

/-! ### Characterisation of the `bisect_right` loop on monotone tables -/

theorem bisectAux_spec (a : List ℚ) (x : ℚ) (hmono : MonoTable a) :
    ∀ (fuel lo hi : ℕ), lo ≤ hi → hi ≤ a.length → hi - lo ≤ fuel →
      (∀ j, j < lo → a.getD j 0 ≤ x) →
      (∀ j, hi ≤ j → j < a.length → x < a.getD j 0) →
      (∀ j, j < bisectAux a x fuel lo hi → a.getD j 0 ≤ x) ∧
      (∀ j, bisectAux a x fuel lo hi ≤ j → j < a.length → x < a.getD j 0) ∧
      lo ≤ bisectAux a x fuel lo hi ∧ bisectAux a x fuel lo hi ≤ hi := by
  intro fuel
  induction fuel with
  | zero =>
    intro lo hi hlohi hhi hfuel hbelow habove
    have heq : lo = hi := by omega
    subst heq
    exact ⟨hbelow, fun j hj hjl => habove j hj hjl, le_rfl, le_rfl⟩
  | succ fuel ih =>
    intro lo hi hlohi hhi hfuel hbelow habove
    simp only [bisectAux]
    by_cases hlh : lo < hi
    · rw [if_pos hlh]
      have hmlo : lo ≤ (lo + hi) / 2 := by omega
      have hmhi : (lo + hi) / 2 < hi := by omega
      by_cases hx : x < a.getD ((lo + hi) / 2) 0
      · rw [if_pos hx]
        have habove' : ∀ j, (lo + hi) / 2 ≤ j → j < a.length → x < a.getD j 0 := by
          intro j hj hjl
          exact lt_of_lt_of_le hx (monoTable_le a hmono _ j hj hjl)
        have h := ih lo ((lo + hi) / 2) (by omega) (by omega) (by omega) hbelow habove'
        exact ⟨h.1, h.2.1, h.2.2.1, le_trans h.2.2.2 (le_of_lt hmhi)⟩
      · rw [if_neg hx]
        push_neg at hx
        have hbelow' : ∀ j, j < (lo + hi) / 2 + 1 → a.getD j 0 ≤ x := by
          intro j hj
          exact le_trans (monoTable_le a hmono j _ (by omega) (by omega)) hx
        have h := ih ((lo + hi) / 2 + 1) hi (by omega) hhi (by omega) hbelow' habove
        exact ⟨h.1, h.2.1, le_trans (by omega) h.2.2.1, h.2.2.2⟩
    · rw [if_neg hlh]
      have heq : lo = hi := by omega
      exact ⟨hbelow, fun j hj hjl => habove j (heq ▸ hj) hjl, le_rfl, hlohi⟩

theorem bisect_spec (a : List ℚ) (x : ℚ) (h : MonoTable a) :
    (∀ j, j < bisect a x → a.getD j 0 ≤ x) ∧
    (∀ j, bisect a x ≤ j → j < a.length → x < a.getD j 0) ∧
    bisect a x ≤ a.length := by
  have hs := bisectAux_spec a x h a.length 0 a.length (Nat.zero_le _) le_rfl
    (by omega) (fun j hj => absurd hj (Nat.not_lt_zero j))
    (fun j hj hjl => absurd hjl (by omega))
  exact ⟨hs.1, hs.2.1, hs.2.2.2⟩

theorem bisect_eq_iff (a : List ℚ) (x : ℚ) (h : MonoTable a) (i : ℕ)
    (hi : i < a.length) (hx : 0 ≤ x) :
    bisect a x = i ↔ cprev a i ≤ x ∧ x < a.getD i 0 := by
  obtain ⟨h1, h2, h3⟩ := bisect_spec a x h
  constructor
  · intro he
    refine ⟨?_, h2 i (le_of_eq he) hi⟩
    by_cases h0 : i = 0
    · simp [cprev, h0, hx]
    · have : i - 1 < bisect a x := by omega
      simpa [cprev, h0] using h1 (i - 1) this
  · rintro ⟨hc, hlt⟩
    by_contra hne
    rcases Nat.lt_or_ge (bisect a x) i with hlt2 | hge
    · have hb : bisect a x < a.length := by omega
      have hx2 := h2 (bisect a x) le_rfl hb
      have h0 : i ≠ 0 := by omega
      have hmono2 := monoTable_le a h (bisect a x) (i - 1) (by omega) (by omega)
      have hcp : a.getD (i - 1) 0 ≤ x := by simpa [cprev, h0] using hc
      linarith
    · have : i < bisect a x := by omega
      have := h1 i this
      linarith

theorem bisect_lt_length (a : List ℚ) (x : ℚ) (h : MonoTable a)
    (hlast : a.getLast? = some 1) (hx : x < 1) : bisect a x < a.length := by
  obtain ⟨h1, _, h3⟩ := bisect_spec a x h
  obtain ⟨hpos, hlastD⟩ := getD_last a 1 hlast
  by_contra hge
  have heq : bisect a x = a.length := by omega
  have := h1 (a.length - 1) (by omega)
  rw [hlastD] at this
  linarith

/-! ### Facts about the validation loop and the constructors -/

theorem isOk_iff {α : Type} (r : Except PyError α) :
    isOk r = true ↔ ∃ d, r = .ok d := by
  cases r <;> simp [isOk]

theorem probLoop_ok_inv (step : PyVal → Except PyError ℚ) :
    ∀ (xs : List PyVal) (c : ℚ) (ps cs : List ℚ),
      probLoop step c xs = .ok (ps, cs) →
      ps.length = xs.length ∧ cs = roundedPrefixSums c ps ∧
      (∀ k b, xs.get? k = some b → ∃ d, step b = .ok d ∧ ps.get? k = some d)
  | [], c, ps, cs, h => by
    simp only [probLoop, Except.ok.injEq, Prod.mk.injEq] at h
    obtain ⟨h1, h2⟩ := h
    subst h1; subst h2
    exact ⟨rfl, rfl, fun k b hk => by simp at hk⟩
  | v :: rest, c, ps, cs, h => by
    simp only [probLoop] at h
    split at h
    · simp at h
    · rename_i d hs
      split at h
      · simp at h
      · rename_i ps' cs' hl
        simp only [Except.ok.injEq, Prod.mk.injEq] at h
        obtain ⟨h1, h2⟩ := h
        subst h1; subst h2
        have ih := probLoop_ok_inv step rest (roundDec (c + d)) ps' cs' hl
        refine ⟨by simp [ih.1], by simp [roundedPrefixSums, ih.2.1], ?_⟩
        intro k b hk
        cases k with
        | zero =>
          simp only [List.get?] at hk
          cases hk
          exact ⟨d, hs, rfl⟩
        | succ n =>
          simp only [List.get?] at hk
          obtain ⟨d', hd', hp'⟩ := ih.2.2 n b hk
          exact ⟨d', hd', by simpa using hp'⟩

theorem probLoop_err_at (step : PyVal → Except PyError ℚ) :
    ∀ (xs : List PyVal) (c : ℚ) (k : ℕ) (b : PyVal) (e : PyError),
      (∀ v ∈ xs.take k, isOk (step v) = true) →
      xs.get? k = some b → step b = .error e →
      probLoop step c xs = .error e
  | [], _, k, b, e, _, hk, _ => by simp at hk
  | v :: rest, c, k, b, e, hpre, hk, hb => by
    cases k with
    | zero =>
      simp only [List.get?, Option.some.injEq] at hk
      subst hk
      simp [probLoop, hb]
    | succ n =>
      have hv : isOk (step v) = true := hpre v (by simp)
      obtain ⟨d, hd⟩ := (isOk_iff (step v)).mp hv
      have ih := probLoop_err_at step rest (roundDec (c + d)) n b e
        (fun w hw => hpre w (by simp [hw])) (by simpa using hk) hb
      simp [probLoop, hd, ih]

theorem probLoop_ok_all (step : PyVal → Except PyError ℚ) :
    ∀ (xs : List PyVal) (c : ℚ), (∀ v ∈ xs, isOk (step v) = true) →
      ∃ ps cs, probLoop step c xs = .ok (ps, cs)
  | [], c, _ => ⟨[], [], rfl⟩
  | v :: rest, c, h => by
    obtain ⟨d, hd⟩ := (isOk_iff (step v)).mp (h v (by simp))
    obtain ⟨ps, cs, hl⟩ := probLoop_ok_all step rest (roundDec (c + d))
      (fun w hw => h w (by simp [hw]))
    exact ⟨d :: ps, roundDec (c + d) :: cs, by simp [probLoop, hd, hl]⟩

theorem filterMap_toInt_length :
    ∀ (nums : List PyVal), allIntegers nums = true →
      (nums.filterMap toInt).length = nums.length
  | [], _ => rfl
  | v :: rest, h => by
    have h' : allIntegers rest = true := by
      simp only [allIntegers, List.all_cons, Bool.and_eq_true] at h
      exact h.2
    cases v with
    | int n => simp [toInt, filterMap_toInt_length rest h']
    | float f => simp [allIntegers] at h
    | str => simp [allIntegers] at h

theorem initWith_ok_inv (step : PyVal → Except PyError ℚ)
    (nums probs : List PyVal) (s : RandomGenState)
    (h : initWith step nums probs = .ok s) :
    nums.length = probs.length ∧ allIntegers nums = true ∧
    s.random_nums = nums.filterMap toInt ∧
    probLoop step 0 probs = .ok (s.probabilities, s.cum_probabilities) ∧
    s.cum_probabilities.getLast? = some 1 := by
  simp only [initWith] at h
  split at h
  · simp at h
  · split at h
    · simp at h
    · rename_i hlen hint
      refine ⟨by omega, by simpa using hint, ?_⟩
      split at h
      · simp at h
      · rename_i ps cs hpl
        split at h
        · simp at h
        · rename_i c hc
          split at h
          · simp at h
          · rename_i hc1
            simp only [Except.ok.injEq] at h
            have h1 : c = 1 := by simpa using hc1
            subst h
            exact ⟨rfl, by simp [hpl], by simp [hc, h1]⟩

theorem stepNN_ok_iff (v : PyVal) (d : ℚ) :
    stepNN v = .ok d ↔ ∃ f, v = .float f ∧ 0 ≤ f.val ∧ d = f.dec := by
  cases v with
  | int n =>
    simp only [stepNN]
    split <;> simp
  | float f =>
    simp only [stepNN]
    split
    · rename_i hf
      constructor
      · intro h; simp at h
      · rintro ⟨g, hg, hge, _⟩
        cases hg
        linarith
    · rename_i hf
      push_neg at hf
      constructor
      · intro h
        simp only [Except.ok.injEq] at h
        exact ⟨f, rfl, hf, h.symm⟩
      · rintro ⟨g, hg, _, hd⟩
        cases hg
        simp [hd]
  | str => simp [stepNN]

theorem stepRNG_ok_iff (v : PyVal) (d : ℚ) :
    stepRNG v = .ok d ↔ ∃ f, v = .float f ∧ 0 ≤ f.val ∧ f.val ≤ 1 ∧ d = f.dec := by
  cases v with
  | int n =>
    simp only [stepRNG]
    split
    · simp
    · split <;> simp
  | float f =>
    simp only [stepRNG]
    split
    · rename_i hf
      constructor
      · intro h; simp at h
      · rintro ⟨g, hg, hge, _, _⟩
        cases hg
        linarith
    · rename_i hf
      push_neg at hf
      split
      · rename_i hf1
        constructor
        · intro h; simp at h
        · rintro ⟨g, hg, _, hle, _⟩
          cases hg
          linarith
      · rename_i hf1
        push_neg at hf1
        constructor
        · intro h
          simp only [Except.ok.injEq] at h
          exact ⟨f, rfl, hf, hf1, h.symm⟩
        · rintro ⟨g, hg, _, _, hd⟩
          cases hg
          simp [hd]
  | str => simp [stepRNG]

theorem step_ok_float (step : PyVal → Except PyError ℚ)
    (hstep : step = stepNN ∨ step = stepRNG) (v : PyVal) (d : ℚ)
    (h : step v = .ok d) : ∃ f, v = .float f ∧ 0 ≤ f.val ∧ d = f.dec := by
  cases hstep with
  | inl he =>
    subst he
    exact (stepNN_ok_iff v d).mp h
  | inr he =>
    subst he
    obtain ⟨f, hf, h0, _, hd⟩ := (stepRNG_ok_iff v d).mp h
    exact ⟨f, hf, h0, hd⟩

theorem step_ok_nonneg (step : PyVal → Except PyError ℚ)
    (hstep : step = stepNN ∨ step = stepRNG) (v : PyVal) (d : ℚ)
    (h : step v = .ok d) : 0 ≤ d := by
  obtain ⟨f, _, h0, hd⟩ := step_ok_float step hstep v d h
  subst hd
  exact f.sign_iff.mp h0

theorem initState_facts (step : PyVal → Except PyError ℚ)
    (hstep : step = stepNN ∨ step = stepRNG)
    (nums probs : List PyVal) (s : RandomGenState)
    (h : initWith step nums probs = .ok s) :
    s.cum_probabilities = roundedPrefixSums 0 s.probabilities ∧
    (∀ p ∈ s.probabilities, 0 ≤ p) ∧
    MonoTable s.cum_probabilities ∧
    s.cum_probabilities.getLast? = some 1 ∧
    s.probabilities.length = probs.length ∧
    s.cum_probabilities.length = probs.length ∧
    s.random_nums.length = probs.length ∧
    (∀ k b, probs.get? k = some b → ∃ d, step b = .ok d ∧ s.probabilities.get? k = some d) := by
  obtain ⟨hlen, hint, hrn, hpl, hlast⟩ := initWith_ok_inv step nums probs s h
  obtain ⟨hplen, hcs, hmap⟩ := probLoop_ok_inv step probs 0 _ _ hpl
  have hnonneg : ∀ p ∈ s.probabilities, 0 ≤ p := by
    intro p hp
    obtain ⟨k, hk⟩ := List.get?_of_mem hp
    have hklt : k < probs.length := by
      rw [← hplen]
      obtain ⟨hlt, -⟩ := List.get?_eq_some.mp hk
      exact hlt
    have hb : probs.get? k = some (probs.get ⟨k, hklt⟩) := List.get?_eq_get hklt
    obtain ⟨d, hd, hpd⟩ := hmap k _ hb
    rw [hk] at hpd
    cases hpd
    exact step_ok_nonneg step hstep _ p hd
  refine ⟨hcs, hnonneg, ?_, hlast, hplen, ?_, ?_, hmap⟩
  · rw [hcs]
    exact roundedPrefixSums_mono s.probabilities 0 le_rfl hnonneg
  · rw [hcs, roundedPrefixSums_length]
    exact hplen
  · rw [hrn, filterMap_toInt_length nums hint]
    exact hlen

theorem initWith_err_loop (step : PyVal → Except PyError ℚ)
    (nums probs : List PyVal) (hlen : nums.length = probs.length)
    (hint : allIntegers nums = true) (k : ℕ) (b : PyVal) (e : PyError)
    (hpre : ∀ v ∈ probs.take k, isOk (step v) = true)
    (hk : probs.get? k = some b) (hb : step b = .error e) :
    initWith step nums probs = .error e := by
  have hl := probLoop_err_at step probs 0 k b e hpre hk hb
  simp [initWith, hlen, hint, hl]

theorem stepRNG_ok_imp_NN (v : PyVal) (h : isOk (stepRNG v) = true) :
    isOk (stepNN v) = true := by
  obtain ⟨d, hd⟩ := (isOk_iff _).mp h
  obtain ⟨f, hf, h0, _, _⟩ := (stepRNG_ok_iff v d).mp hd
  subst hf
  refine (isOk_iff _).mpr ⟨f.dec, ?_⟩
  simp [stepNN, not_lt.mpr h0]

theorem listGet?_getD : ∀ (l : List ℤ) (i : ℕ), i < l.length →
    l.get? i = some (l.getD i 0)
  | [], i, h => by simp at h
  | x :: rest, 0, _ => rfl
  | x :: rest, i + 1, h => by
    simpa using listGet?_getD rest i (by simpa using h)

theorem int_mem_of_mem_filterMap (nums : List PyVal) (x : ℤ)
    (h : x ∈ nums.filterMap toInt) : PyVal.int x ∈ nums := by
  obtain ⟨v, hv, hx⟩ := List.mem_filterMap.mp h
  cases v with
  | int n =>
    simp only [toInt, Option.some.injEq] at hx
    subst hx
    exact hv
  | float f => simp [toInt] at hx
  | str => simp [toInt] at hx

theorem listQGet?_getD : ∀ (l : List ℚ) (i : ℕ), i < l.length →
    l.get? i = some (l.getD i 0)
  | [], i, h => by simp at h
  | x :: rest, 0, _ => rfl
  | x :: rest, i + 1, h => by
    simpa using listQGet?_getD rest i (by simpa using h)

theorem getD_nonneg (l : List ℚ) (hnn : ∀ p ∈ l, 0 ≤ p) (n : ℕ) :
    0 ≤ l.getD n 0 := by
  by_cases hn : n < l.length
  · exact hnn _ (List.get?_mem (listQGet?_getD l n hn))
  · rw [List.getD_eq_default _ _ (by omega)]

theorem rounded_cprev_nonneg (ps : List ℚ) (hnn : ∀ p ∈ ps, 0 ≤ p) (i : ℕ) :
    0 ≤ cprev (roundedPrefixSums 0 ps) i := by
  cases i with
  | zero => simp [cprev]
  | succ n =>
    have hcp : cprev (roundedPrefixSums 0 ps) (n + 1) =
        (roundedPrefixSums 0 ps).getD n 0 := by
      simp [cprev]
    rw [hcp]
    exact getD_nonneg _ (roundedPrefixSums_nonneg ps 0 le_rfl hnn) n

theorem rounded_cprev_fixed (ps : List ℚ) (hnn : ∀ p ∈ ps, 0 ≤ p) (i : ℕ) :
    roundDec (cprev (roundedPrefixSums 0 ps) i) =
      cprev (roundedPrefixSums 0 ps) i := by
  cases i with
  | zero => simp [cprev, roundDec_zero]
  | succ n =>
    have hcp : cprev (roundedPrefixSums 0 ps) (n + 1) =
        (roundedPrefixSums 0 ps).getD n 0 := by
      simp [cprev]
    rw [hcp]
    by_cases hn : n < ps.length
    · rw [roundedPrefixSums_getD ps n hn]
      exact roundDec_idem _
        (add_nonneg (rounded_cprev_nonneg ps hnn n) (getD_nonneg ps hnn n))
    · rw [List.getD_eq_default]
      · exact roundDec_zero
      · rw [roundedPrefixSums_length]
        omega

/-! ### Claim theorems -/

/-- Claim C1: on every monotonically non-decreasing cumulative table, the
lookup (`find_index_of_number_for_random_roll` =
`find_cumulative_probability_index_of_float` = `bisect.bisect`) returns the
smallest index whose table entry strictly exceeds the roll — every entry
below the returned index is `≤ roll`, every entry from it on is `> roll`,
and an entry exactly equal to the roll lies strictly below the returned
index (insertion after equal elements).  On the table `[0.1, 0.3, 1.0]`,
the doubles `0.1`, `0.09999999999999999`, `0.0` and `0.9999999999999999`
look up to indices 1, 0, 0 and 2 respectively. -/
theorem c1_lookup_strict_upper_bound (a : List ℚ) (x : ℚ) (ha : MonoTable a) :
    (∀ j, j < RandomNumGen.find_cumulative_probability_index_of_float a x →
      a.getD j 0 ≤ x) ∧
    (∀ j, RandomNumGen.find_cumulative_probability_index_of_float a x ≤ j →
      j < a.length → x < a.getD j 0) ∧
    RandomNumGen.find_cumulative_probability_index_of_float a x ≤ a.length ∧
    (∀ i, i < a.length → a.getD i 0 = x →
      i < RandomNumGen.find_cumulative_probability_index_of_float a x) ∧
    (∀ b y, NextNum.find_index_of_number_for_random_roll b y =
      RandomNumGen.find_cumulative_probability_index_of_float b y) ∧
    RandomNumGen.find_cumulative_probability_index_of_float [1/10, 3/10, 1] roll01 = 1 ∧
    RandomNumGen.find_cumulative_probability_index_of_float [1/10, 3/10, 1] rollBelow01 = 0 ∧
    RandomNumGen.find_cumulative_probability_index_of_float [1/10, 3/10, 1] 0 = 0 ∧
    RandomNumGen.find_cumulative_probability_index_of_float [1/10, 3/10, 1] rollBelow1 = 2 := by
  obtain ⟨h1, h2, h3⟩ := bisect_spec a x ha
  refine ⟨h1, h2, h3, ?_, fun b y => rfl, ?_, ?_, ?_, ?_⟩
  · intro i hi heq
    by_contra hge
    push_neg at hge
    have := h2 i hge hi
    rw [heq] at this
    exact lt_irrefl x this
  · decide!
  · decide!
  · decide!
  · decide!

theorem c1_lookup_strict_upper_bound_witness :
    MonoTable [1/10, 3/10, 1] ∧
    RandomNumGen.find_cumulative_probability_index_of_float [1/10, 3/10, 1] roll01 = 1 :=
  ⟨by decide!,
   (c1_lookup_strict_upper_bound [1/10, 3/10, 1] roll01
     (by decide!)).2.2.2.2.2.1⟩

/-- Claim C2 counterexample: the sampler next_num's constructor really
builds from outcomes `[0, 1]` and probabilities `[1e-30, 1.0]` — the
second cumulative addition rounds to exactly 1 at the context's 28
significant digits — and bucket 1's interval `[c_0, c_1) = [1e-30, 1)` has
length `1 - 1e-30`, which differs from the stored probability `p_1 = 1`,
so the claim's "length equals p_i" fails on this validly constructed
sampler. -/
theorem c2_bucket_intervals_counterexample :
    NextNum.init [.int 0, .int 1] [.float f1em30, .float f10] =
      .ok roundedState ∧
    roundedState.cum_probabilities.getD 1 0 -
        cprev roundedState.cum_probabilities 1 ≠
      roundedState.probabilities.getD 1 0 := by
  constructor
  · decide!
  · decide!

/-- Claim C2 (amended): on a validly constructed sampler (either
iteration), bucket `i` is selected exactly for rolls in the half-open
interval `[c_{i-1}, c_i)` (with `c_{-1} = 0`), whose length is
`roundDec (c_{i-1} + p_i) - c_{i-1}` — the context-rounded cumulative
increment — and equals the stored probability `p_i` whenever that addition
is exact at 28 significant digits (as on all the repository's example
inputs); a selected bucket makes `next_num` return the outcome at that
index, a zero-probability bucket is selected for no roll, and a roll of
`0.0` selects the first bucket with strictly positive cumulative value. -/
theorem c2_bucket_intervals (step : PyVal → Except PyError ℚ)
    (hstep : step = stepNN ∨ step = stepRNG) (nums probs : List PyVal)
    (s : RandomGenState) (h : initWith step nums probs = .ok s)
    (i : ℕ) (hi : i < s.cum_probabilities.length)
    (q : ℚ) (hq0 : 0 ≤ q) (hq1 : q < 1) :
    (RandomNumGen.find_cumulative_probability_index_of_float
        s.cum_probabilities q = i ↔
      cprev s.cum_probabilities i ≤ q ∧ q < s.cum_probabilities.getD i 0) ∧
    (RandomNumGen.find_cumulative_probability_index_of_float
        s.cum_probabilities q = i →
      NextNum.next_num s q = .ok (s.random_nums.getD i 0) ∧
      RandomNumGen.next_num s q = .ok (s.random_nums.getD i 0)) ∧
    s.cum_probabilities.getD i 0 - cprev s.cum_probabilities i =
      roundDec (cprev s.cum_probabilities i + s.probabilities.getD i 0) -
        cprev s.cum_probabilities i ∧
    (roundDec (cprev s.cum_probabilities i + s.probabilities.getD i 0) =
        cprev s.cum_probabilities i + s.probabilities.getD i 0 →
      s.cum_probabilities.getD i 0 - cprev s.cum_probabilities i =
        s.probabilities.getD i 0) ∧
    (s.probabilities.getD i 0 = 0 →
      RandomNumGen.find_cumulative_probability_index_of_float
        s.cum_probabilities q ≠ i) ∧
    (cprev s.cum_probabilities i = 0 → 0 < s.cum_probabilities.getD i 0 →
      RandomNumGen.find_cumulative_probability_index_of_float
        s.cum_probabilities 0 = i) := by
  obtain ⟨hcs, hnonneg, hmono, hlast, hplen, hclen, hrlen, hmap⟩ :=
    initState_facts step hstep nums probs s h
  have hiff := bisect_eq_iff s.cum_probabilities q hmono i hi hq0
  have hips : i < s.probabilities.length := by omega
  have hgetDi : s.cum_probabilities.getD i 0 =
      roundDec (cprev s.cum_probabilities i + s.probabilities.getD i 0) := by
    have := roundedPrefixSums_getD s.probabilities i hips
    rw [← hcs] at this
    exact this
  refine ⟨hiff, ?_, by rw [hgetDi], ?_, ?_, ?_⟩
  · intro hbi
    have hirn : i < s.random_nums.length := by omega
    have hget := listGet?_getD s.random_nums i hirn
    constructor
    · show (match s.random_nums.get?
          (NextNum.find_index_of_number_for_random_roll s.cum_probabilities q) with
        | some x => Except.ok x
        | none => Except.error PyError.indexError) = _
      rw [show NextNum.find_index_of_number_for_random_roll s.cum_probabilities q = i
        from hbi, hget]
    · show (match s.random_nums.get?
          (RandomNumGen.find_cumulative_probability_index_of_float
            s.cum_probabilities q) with
        | some x => Except.ok x
        | none => Except.error PyError.indexError) = _
      rw [hbi, hget]
  · intro hexact
    rw [hgetDi, hexact]
    ring
  · intro hp0 hbi
    obtain ⟨hc, hlt⟩ := hiff.mp hbi
    have hfix : roundDec (cprev s.cum_probabilities i) =
        cprev s.cum_probabilities i := by
      have := rounded_cprev_fixed s.probabilities hnonneg i
      rw [← hcs] at this
      exact this
    rw [hgetDi, hp0, add_zero, hfix] at hlt
    linarith
  · intro hcp h0
    exact (bisect_eq_iff s.cum_probabilities 0 hmono i hi le_rfl).mpr
      ⟨le_of_eq hcp, h0⟩

theorem c2_bucket_intervals_witness :
    NextNum.next_num exampleState (1/2) =
      .ok (exampleState.random_nums.getD 2 0) ∧
    RandomNumGen.next_num exampleState (1/2) =
      .ok (exampleState.random_nums.getD 2 0) :=
  (c2_bucket_intervals stepNN (Or.inl rfl) exampleNums exampleProbs exampleState
    (by decide!) 2 (by decide!) (1/2)
    (by decide!) (by decide!)).2.1
    (by decide!)

/-- Claim C3: on a monotonically non-decreasing cumulative table whose last
entry is exactly 1, every roll in `[0,1)` looks up to an index strictly
below the table length; consequently `next_num` on a validly constructed
sampler (either iteration) always returns an outcome — never an error —
and that outcome is a member of the original outcome sequence. -/
theorem c3_lookup_total (a : List ℚ) (ha : MonoTable a)
    (hlast : a.getLast? = some 1) (q : ℚ) (hq0 : 0 ≤ q) (hq1 : q < 1) :
    NextNum.find_index_of_number_for_random_roll a q < a.length ∧
    RandomNumGen.find_cumulative_probability_index_of_float a q < a.length ∧
    (∀ step, step = stepNN ∨ step = stepRNG →
      ∀ nums probs s, initWith step nums probs = .ok s →
        (∃ x, NextNum.next_num s q = .ok x ∧ x ∈ s.random_nums ∧
          PyVal.int x ∈ nums) ∧
        (∃ x, RandomNumGen.next_num s q = .ok x ∧ x ∈ s.random_nums ∧
          PyVal.int x ∈ nums)) := by
  have hb := bisect_lt_length a q ha hlast hq1
  refine ⟨hb, hb, ?_⟩
  intro step hstep nums probs s h
  obtain ⟨hcs, hnonneg, hmono, hlast', hplen, hclen, hrlen, hmap⟩ :=
    initState_facts step hstep nums probs s h
  obtain ⟨hlen, hint, hrn, -, -⟩ := initWith_ok_inv step nums probs s h
  have hbs := bisect_lt_length s.cum_probabilities q hmono hlast' hq1
  have hirn : bisect s.cum_probabilities q < s.random_nums.length := by omega
  have hget := listGet?_getD s.random_nums (bisect s.cum_probabilities q) hirn
  have hmem : s.random_nums.getD (bisect s.cum_probabilities q) 0 ∈
      s.random_nums := List.get?_mem hget
  have hmemn : PyVal.int (s.random_nums.getD (bisect s.cum_probabilities q) 0)
      ∈ nums := by
    apply int_mem_of_mem_filterMap
    rw [← hrn]
    exact hmem
  constructor
  · refine ⟨s.random_nums.getD (bisect s.cum_probabilities q) 0, ?_, hmem, hmemn⟩
    show (match s.random_nums.get?
        (NextNum.find_index_of_number_for_random_roll s.cum_probabilities q) with
      | some x => Except.ok x
      | none => Except.error PyError.indexError) = _
    rw [show NextNum.find_index_of_number_for_random_roll s.cum_probabilities q =
      bisect s.cum_probabilities q from rfl, hget]
  · refine ⟨s.random_nums.getD (bisect s.cum_probabilities q) 0, ?_, hmem, hmemn⟩
    show (match s.random_nums.get?
        (RandomNumGen.find_cumulative_probability_index_of_float
          s.cum_probabilities q) with
      | some x => Except.ok x
      | none => Except.error PyError.indexError) = _
    rw [show RandomNumGen.find_cumulative_probability_index_of_float
      s.cum_probabilities q = bisect s.cum_probabilities q from rfl, hget]

theorem c3_lookup_total_witness :
    NextNum.find_index_of_number_for_random_roll [1/10, 3/10, 1] (1/2) <
      ([(1 : ℚ)/10, 3/10, 1] : List ℚ).length :=
  (c3_lookup_total [1/10, 3/10, 1] (by decide!)
    (by decide!) (1/2) (by decide!)
    (by decide!)).1

/-- Claim C4 counterexample: outcomes `[0, 1]` with probabilities
`[1e-30, 1.0]` really construct (the context-rounded final sum is exactly
1), yet the resulting cumulative table `[1e-30, 1]` is not the exact
prefix-sum list `[1e-30, 1 + 1e-30]` of the stored probabilities — the
claimed exact-prefix-sum invariant is false of the program. -/
theorem c4_cumulative_table_invariants_counterexample :
    NextNum.init [.int 0, .int 1] [.float f1em30, .float f10] =
      .ok roundedState ∧
    roundedState.cum_probabilities ≠
      prefixSums 0 roundedState.probabilities := by
  constructor
  · decide!
  · decide!

/-- Claim C4 (amended): on a validly constructed sampler (either
iteration) the cumulative table is the list of context-rounded running
sums (every addition rounded to 28 significant digits, half-even — hence
the exact running sums whenever every addition fits in 28 digits, as on
the repository's examples), in input order, of the
`Decimal(str(·))`-converted probabilities; it is monotonically
non-decreasing, its last entry is exactly 1, and `next_num` — the only
operation available after construction — leaves the instance (outcome
list, probability list and cumulative table) unchanged. -/
theorem c4_cumulative_table_invariants (step : PyVal → Except PyError ℚ)
    (hstep : step = stepNN ∨ step = stepRNG) (nums probs : List PyVal)
    (s : RandomGenState) (h : initWith step nums probs = .ok s) :
    s.cum_probabilities = roundedPrefixSums 0 s.probabilities ∧
    (∀ k, k < probs.length → ∃ f, probs.get? k = some (.float f) ∧
      s.probabilities.get? k = some f.dec) ∧
    MonoTable s.cum_probabilities ∧
    s.cum_probabilities.getLast? = some 1 ∧
    s.probabilities.length = probs.length ∧
    s.cum_probabilities.length = probs.length ∧
    (∀ q, NextNum.next_num_method s q = (NextNum.next_num s q, s) ∧
      RandomNumGen.next_num_method s q = (RandomNumGen.next_num s q, s)) := by
  obtain ⟨hcs, hnonneg, hmono, hlast, hplen, hclen, hrlen, hmap⟩ :=
    initState_facts step hstep nums probs s h
  refine ⟨hcs, ?_, hmono, hlast, hplen, hclen, fun q => ⟨rfl, rfl⟩⟩
  intro k hk
  have hb : probs.get? k = some (probs.get ⟨k, hk⟩) := List.get?_eq_get hk
  obtain ⟨d, hd, hpd⟩ := hmap k _ hb
  obtain ⟨f, hf, h0, hdd⟩ := step_ok_float step hstep _ d hd
  subst hdd
  exact ⟨f, by rw [hb, hf], hpd⟩

theorem c4_cumulative_table_invariants_witness :
    exampleState.cum_probabilities =
      roundedPrefixSums 0 exampleState.probabilities :=
  (c4_cumulative_table_invariants stepNN (Or.inl rfl) exampleNums exampleProbs
    exampleState (by decide!)).1

/-- Claim C5: construction accumulates under exact decimal arithmetic — for
outcomes `[-1,0,1,2,3]` and probabilities `[0.01,0.3,0.58,0.1,0.01]` both
constructors succeed with cumulative table exactly
`[0.01, 0.31, 0.89, 0.99, 1.00]`, while `[0.01,0.3,0.58,0.1,0.02]`
(sum 1.01) fails both constructors with the probability-sum error. -/
theorem c5_decimal_exact_construction :
    NextNum.init exampleNums exampleProbs = .ok exampleState ∧
    RandomNumGen.init exampleNums exampleProbs = .ok exampleState ∧
    exampleState.cum_probabilities = [1/100, 31/100, 89/100, 99/100, 1] ∧
    NextNum.init exampleNums badSumProbs = .error .probSumError ∧
    RandomNumGen.init exampleNums badSumProbs = .error .probSumError := by
  refine ⟨?_, ?_, rfl, ?_, ?_⟩ <;> decide!

/-- Claim C6 counterexample: for outcomes `[1]` and probabilities `[1.5]`
(a float strictly greater than 1.0, so the claim demands the
InvalidProbability range error), `next_num.RandomGen.__init__` instead
fails with the probability-sum `ValueError` — it has no upper range
check. -/
theorem c6_out_of_range_counterexample :
    NextNum.init [.int 1] [.float f15] = .error .probSumError ∧
    isInvalidProbability .probSumError = false ∧
    1 < f15.val := by
  refine ⟨?_, rfl, ?_⟩ <;> decide!

/-- Claim C6 (amended): with equal lengths, integer outcomes and the
out-of-range float the first offending probability element,
`random_num_gen.RandomGen.__init__` fails with one of the two
InvalidProbability range errors, and `next_num.RandomGen.__init__` fails
with the non-negativity range error when the value is negative (a value
greater than 1.0 is not range-checked there and surfaces later as the
probability-sum error); in every case no sampler instance is produced by
either constructor. -/
theorem c6_out_of_range_probability (nums probs : List PyVal) (k : ℕ)
    (f : PyFloat) (hlen : nums.length = probs.length)
    (hint : allIntegers nums = true) (hk : probs.get? k = some (.float f))
    (hpre : ∀ v ∈ probs.take k, isOk (stepRNG v) = true)
    (hf : f.val < 0 ∨ 1 < f.val) :
    (RandomNumGen.init nums probs = .error .negProbError ∨
      RandomNumGen.init nums probs = .error .probGtOneError) ∧
    (f.val < 0 → NextNum.init nums probs = .error .negProbError) ∧
    (∀ s, NextNum.init nums probs ≠ .ok s) ∧
    (∀ s, RandomNumGen.init nums probs ≠ .ok s) := by
  refine ⟨?_, ?_, ?_, ?_⟩
  · rcases hf with hneg | hgt
    · left
      exact initWith_err_loop stepRNG nums probs hlen hint k _ _ hpre hk
        (by simp [stepRNG, hneg])
    · right
      have hnn : ¬ f.val < 0 := by linarith
      exact initWith_err_loop stepRNG nums probs hlen hint k _ _ hpre hk
        (by simp [stepRNG, hnn, hgt])
  · intro hneg
    exact initWith_err_loop stepNN nums probs hlen hint k _ _
      (fun v hv => stepRNG_ok_imp_NN v (hpre v hv)) hk
      (by simp [stepNN, hneg])
  · intro s hok
    obtain ⟨hcs, hnonneg, hmono, hlast, hplen, hclen, hrlen, hmap⟩ :=
      initState_facts stepNN (Or.inl rfl) nums probs s hok
    obtain ⟨d, hd, hpd⟩ := hmap k _ hk
    obtain ⟨g, hg, h0, hdd⟩ := (stepNN_ok_iff _ d).mp hd
    cases hg
    subst hdd
    rcases hf with hneg | hgt
    · linarith
    · have hdec1 : 1 < f.dec := by
        by_contra hle
        push_neg at hle
        have := f.le_one_iff.mpr hle
        linarith
      have hrep : Rep28 f.dec := by
        rcases f.dec_rep with hr | hr
        · exact hr
        · exfalso
          have := rep28_nonneg _ hr
          linarith
      have hkps : k < s.probabilities.length := by
        obtain ⟨hlt, -⟩ := List.get?_eq_some.mp hpd
        exact hlt
      have hgd : s.probabilities.getD k 0 = f.dec := by
        have := listQGet?_getD s.probabilities k hkps
        rw [hpd] at this
        exact (Option.some.inj this).symm
      have hgetDk : s.cum_probabilities.getD k 0 =
          roundDec (cprev s.cum_probabilities k + s.probabilities.getD k 0) := by
        have := roundedPrefixSums_getD s.probabilities k hkps
        rw [← hcs] at this
        exact this
      have hcpn : 0 ≤ cprev s.cum_probabilities k := by
        have := rounded_cprev_nonneg s.probabilities hnonneg k
        rw [← hcs] at this
        exact this
      have hmonot : f.dec ≤ s.cum_probabilities.getD k 0 := by
        calc f.dec = roundDec f.dec := (roundDec_rep _ hrep).symm
          _ ≤ roundDec (cprev s.cum_probabilities k + s.probabilities.getD k 0) :=
              roundDec_mono _ _ (by linarith)
                (by rw [hgd]; linarith)
          _ = s.cum_probabilities.getD k 0 := hgetDk.symm
      obtain ⟨hlpos, hlastD⟩ := getD_last s.cum_probabilities 1 hlast
      have hle1 : s.cum_probabilities.getD k 0 ≤ 1 := by
        have := monoTable_le s.cum_probabilities hmono k
          (s.cum_probabilities.length - 1) (by omega) (by omega)
        rw [hlastD] at this
        exact this
      linarith
  · intro s hok
    obtain ⟨hcs, hnonneg, hmono, hlast, hplen, hclen, hrlen, hmap⟩ :=
      initState_facts stepRNG (Or.inr rfl) nums probs s hok
    obtain ⟨d, hd, hpd⟩ := hmap k _ hk
    obtain ⟨g, hg, h0, h1, hdd⟩ := (stepRNG_ok_iff _ d).mp hd
    cases hg
    rcases hf with hneg | hgt
    · linarith
    · linarith

theorem c6_out_of_range_probability_witness :
    RandomNumGen.init [.int 1, .int 2] [.float f03, .float fm05] =
      .error .negProbError ∨
    RandomNumGen.init [.int 1, .int 2] [.float f03, .float fm05] =
      .error .probGtOneError :=
  (c6_out_of_range_probability [.int 1, .int 2] [.float f03, .float fm05] 1
    fm05 rfl rfl rfl
    (by
      intro v hv
      have hv' : v = PyVal.float f03 := by simpa using hv
      subst hv'
      decide!)
    (Or.inl (by decide!))).1

/-- Claim C7 counterexample: for outcomes `[3.1]` (non-integral) and
probabilities `[-0.5]` (out of range), both constructors surface the
outcome type error, not InvalidProbability — the outcome check runs before
the probability checks. -/
theorem c7_validation_order_counterexample :
    NextNum.init [.float f31] [.float fm05] = .error .outcomeTypeError ∧
    RandomNumGen.init [.float f31] [.float fm05] = .error .outcomeTypeError ∧
    isInvalidProbability .outcomeTypeError = false ∧
    fm05.val < 0 := by
  refine ⟨?_, ?_, rfl, ?_⟩ <;> decide!

/-- Claim C7 (amended): both constructors validate in the fixed order
(1) length equality, (2) per-element outcome integrality, (3) per-element
probability checks in list order, (4) sum-to-one — failing with the error
of the first violated check; in particular an input with both a
non-integral outcome and a bad probability surfaces the outcome type
error.  After all per-element checks pass, only success, the
probability-sum error, or (for empty input) the index error remain. -/
theorem c7_validation_order (step : PyVal → Except PyError ℚ)
    (hstep : step = stepNN ∨ step = stepRNG) (nums probs : List PyVal) :
    (nums.length ≠ probs.length →
      initWith step nums probs = .error .lengthMismatch) ∧
    (nums.length = probs.length → allIntegers nums = false →
      initWith step nums probs = .error .outcomeTypeError) ∧
    (∀ k b e, nums.length = probs.length → allIntegers nums = true →
      (∀ v ∈ probs.take k, isOk (step v) = true) →
      probs.get? k = some b → step b = .error e →
      initWith step nums probs = .error e) ∧
    (nums.length = probs.length → allIntegers nums = true →
      (∀ v ∈ probs, isOk (step v) = true) →
      (∃ s, initWith step nums probs = .ok s) ∨
      initWith step nums probs = .error .probSumError ∨
      initWith step nums probs = .error .indexError) := by
  refine ⟨?_, ?_, ?_, ?_⟩
  · intro hne
    simp [initWith, hne]
  · intro hlen hint
    simp [initWith, hlen, hint]
  · intro k b e hlen hint hpre hk hb
    exact initWith_err_loop step nums probs hlen hint k b e hpre hk hb
  · intro hlen hint hall
    obtain ⟨ps, cs, hl⟩ := probLoop_ok_all step probs 0 hall
    cases hcl : cs.getLast? with
    | none =>
      right; right
      simp [initWith, hlen, hint, hl, hcl]
    | some c =>
      by_cases hc1 : c = 1
      · left
        subst hc1
        exact ⟨⟨nums.filterMap toInt, ps, cs⟩, by simp [initWith, hlen, hint, hl, hcl]⟩
      · right; left
        simp [initWith, hlen, hint, hl, hcl, hc1]

theorem c7_validation_order_witness :
    initWith stepNN [PyVal.float f31] [PyVal.float fm05] =
      .error .outcomeTypeError :=
  (c7_validation_order stepNN (Or.inl rfl) [PyVal.float f31]
    [PyVal.float fm05]).2.1 rfl (by decide!)

/-- Claim C8: on a sampler constructed from given inputs (either
iteration), the sequence of outcomes of `K` draws after seeding the shared
pseudo-random source is a function of the seed and the construction inputs
alone — two runs over samplers built from the same inputs, with the source
reset to the same seed, return identical outcome sequences. -/
theorem c8_reproducible_under_seed (step : PyVal → Except PyError ℚ)
    (hstep : step = stepNN ∨ step = stepRNG) (src : RandomSource)
    (seed K : ℕ) (nums probs : List PyVal) (s₁ s₂ : RandomGenState)
    (h₁ : initWith step nums probs = .ok s₁)
    (h₂ : initWith step nums probs = .ok s₂) :
    seededRunNN src seed s₁ K = seededRunNN src seed s₂ K ∧
    seededRunRNG src seed s₁ K = seededRunRNG src seed s₂ K := by
  have hs : s₁ = s₂ := by
    rw [h₁] at h₂
    exact Except.ok.inj h₂
  subst hs
  exact ⟨rfl, rfl⟩

theorem c8_reproducible_under_seed_witness :
    seededRunNN (fun _ _ => (1 : ℚ)/2) 10 exampleState 3 =
      seededRunNN (fun _ _ => (1 : ℚ)/2) 10 exampleState 3 ∧
    seededRunRNG (fun _ _ => (1 : ℚ)/2) 10 exampleState 3 =
      seededRunRNG (fun _ _ => (1 : ℚ)/2) 10 exampleState 3 :=
  c8_reproducible_under_seed stepNN (Or.inl rfl) (fun _ _ => (1 : ℚ)/2) 10 3
    exampleNums exampleProbs exampleState exampleState
    (by decide!) (by decide!)

/-- Claim C9: constructing from two empty sequences passes the length check
and every per-element check vacuously and then fails with the index error
(out-of-bounds `[-1]` on the empty cumulative table), an error kind
distinct from all seven raise sites of the five documented validation
error kinds; no sampler with an empty outcome list is ever produced by
either constructor. -/
theorem c9_empty_input (step : PyVal → Except PyError ℚ)
    (hstep : step = stepNN ∨ step = stepRNG) (nums probs : List PyVal)
    (s : RandomGenState) :
    initWith step [] [] = .error .indexError ∧
    (initWith step nums probs = .ok s →
      s.random_nums ≠ [] ∧ nums ≠ [] ∧ probs ≠ []) ∧
    (PyError.indexError ≠ .lengthMismatch ∧
      PyError.indexError ≠ .outcomeTypeError ∧
      PyError.indexError ≠ .compareTypeError ∧
      PyError.indexError ≠ .negProbError ∧
      PyError.indexError ≠ .probGtOneError ∧
      PyError.indexError ≠ .probTypeError ∧
      PyError.indexError ≠ .probSumError) := by
  refine ⟨rfl, ?_, by decide⟩
  intro h
  obtain ⟨hcs, hnonneg, hmono, hlast, hplen, hclen, hrlen, hmap⟩ :=
    initState_facts step hstep nums probs s h
  obtain ⟨hne, -⟩ := getD_last s.cum_probabilities 1 hlast
  have hprobs : probs ≠ [] := by
    intro he
    subst he
    rw [List.length_nil] at hclen
    omega
  have hnums : nums ≠ [] := by
    obtain ⟨hlen, -, -, -, -⟩ := initWith_ok_inv step nums probs s h
    intro he
    subst he
    simp at hlen
    exact hprobs (List.length_eq_zero.mp hlen.symm)
  have hrn : s.random_nums ≠ [] := by
    intro he
    rw [he] at hrlen
    simp at hrlen
    exact hprobs (List.length_eq_zero.mp hrlen.symm)
  exact ⟨hrn, hnums, hprobs⟩

theorem c9_empty_input_witness :
    initWith stepNN [] [] = .error .indexError :=
  (c9_empty_input stepNN (Or.inl rfl) [] [] exampleState).1

/-- Claim C10: a probability element that is the integer `0` or `1` — a
mathematically valid value in `[0,1]`, but not a float — makes both
constructors fail with the probability type error: the per-element check
requires the floating-point representation. -/
theorem c10_integer_probability (nums probs : List PyVal) (k : ℕ) (n : ℤ)
    (hlen : nums.length = probs.length) (hint : allIntegers nums = true)
    (hk : probs.get? k = some (.int n)) (hn0 : 0 ≤ n) (hn1 : n ≤ 1)
    (hpre : ∀ v ∈ probs.take k, isOk (stepRNG v) = true) :
    NextNum.init nums probs = .error .probTypeError ∧
    RandomNumGen.init nums probs = .error .probTypeError := by
  constructor
  · exact initWith_err_loop stepNN nums probs hlen hint k _ _
      (fun v hv => stepRNG_ok_imp_NN v (hpre v hv)) hk
      (by simp [stepNN, not_lt.mpr hn0])
  · have h1 : ¬ (1 : ℤ) < n := not_lt.mpr hn1
    exact initWith_err_loop stepRNG nums probs hlen hint k _ _ hpre hk
      (by simp [stepRNG, not_lt.mpr hn0, h1])

theorem c10_integer_probability_witness :
    NextNum.init [.int 5] [.int 0] = .error .probTypeError ∧
    RandomNumGen.init [.int 5] [.int 0] = .error .probTypeError :=
  c10_integer_probability [.int 5] [.int 0] 0 0 rfl rfl rfl
    (by decide) (by decide) (fun v hv => by simp at hv)
